import Mathlib

/-!
Verification of the camera-geometry and example-assembly core of
`src/dataset/dataset_re10k.py` (class `DatasetRE10k`).

The Python code is shallowly embedded: torch tensors holding a single
3-vector become `Vec3`, 4x4 camera matrices become `Matrix (Fin 4) (Fin 4) ℝ`,
per-scene processing of `__iter__` becomes explicit functions from the
per-scene inputs to `Option Example` (`none` models the `continue`
statements that skip a scene), and the in-place list bookkeeping on
`self.chunks` becomes explicit list functions.

The file is organized as definitions first, then theorems.
-/

namespace MVSplat

set_option maxHeartbeats 1000000

/-! ## Definitions -/

/-! ### 3-vectors: torch tensors of shape `(3,)` -/

/-- A single 3-vector sample of a torch tensor whose last dimension is 3. -/
@[ext]
structure Vec3 where
  x : ℝ
  y : ℝ
  z : ℝ

/-- Componentwise subtraction, as in `a - b` on tensors. -/
def Vec3.sub (u v : Vec3) : Vec3 := ⟨u.x - v.x, u.y - v.y, u.z - v.z⟩

/-- Componentwise negation, as in `-x` on tensors. -/
def Vec3.neg (v : Vec3) : Vec3 := ⟨-v.x, -v.y, -v.z⟩

/-- Scalar multiplication, as in `c * x` on tensors. -/
def Vec3.smul (c : ℝ) (v : Vec3) : Vec3 := ⟨c * v.x, c * v.y, c * v.z⟩

/-- Dot product of two 3-vectors. -/
def Vec3.dot (u v : Vec3) : ℝ := u.x * v.x + u.y * v.y + u.z * v.z

/-- Cross product, the convention used by `torch.cross` on 3-vectors. -/
def Vec3.cross (u v : Vec3) : Vec3 :=
  ⟨u.y * v.z - u.z * v.y, u.z * v.x - u.x * v.z, u.x * v.y - u.y * v.x⟩

/-- Sum of squared components, `(x * x).sum(dim=-1)` in the source. -/
def Vec3.normSq (v : Vec3) : ℝ := v.x * v.x + v.y * v.y + v.z * v.z

/-- Euclidean norm, `torch.sqrt((x * x).sum(dim=-1))` / `.norm()` in the source. -/
noncomputable def Vec3.norm (v : Vec3) : ℝ := Real.sqrt v.normSq

/-- `DatasetRE10k.normalize`: divide a vector by the square root of the sum of
the squares of its components. -/
noncomputable def normalize (v : Vec3) : Vec3 := ⟨v.x / v.norm, v.y / v.norm, v.z / v.norm⟩

/-- `DatasetRE10k.get_forward_up_right_tensor`: normalize the view direction,
take the unit `+Z` axis as the up reference, set
`right = normalize(cross(to_light, up))` and `up = normalize(cross(to_light, right))`,
and return `(to_light, up, right)`. -/
noncomputable def get_forward_up_right_tensor (to_light : Vec3) : Vec3 × Vec3 × Vec3 :=
  let f := normalize to_light
  let up0 : Vec3 := ⟨0, 0, 1⟩
  let right := normalize (Vec3.cross f up0)
  let up := normalize (Vec3.cross f right)
  (f, up, right)

/-! ### Camera matrices for the direction-encoded (`.zst`) path -/

/-- Camera matrices are 4x4 torch tensors. -/
abbrev Mat4 := Matrix (Fin 4) (Fin 4) ℝ

/-- Row selector used when a 3-vector is written into the top three rows of a
4x4 matrix column. -/
def Vec3.compAt (v : Vec3) (i : Fin 4) : ℝ :=
  if i = 0 then v.x else if i = 1 then v.y else v.z

/-- Camera position of a direction-encoded frame: the direction-array sample
at the principal pixel `(127, 127)`, scaled by the fixed factor `0.8`
(`chunk["direction"][..., 127:128, 127:128, :] * 0.8` in the source). -/
def zstCameraPosition (d : Vec3) : Vec3 := Vec3.smul 0.8 d

/-- Camera-to-world matrix assembled by the `.zst` branch before inversion:
starting from `eye(4)`, column 0 gets `right`, column 1 gets `up`, column 2
gets `forward` (all derived from the negated principal-pixel direction via
`get_forward_up_right_tensor`), and the top of column 3 gets
`-camera_position`. -/
noncomputable def zstPreInvExtrinsics (d : Vec3) : Mat4 :=
  let camPos := zstCameraPosition d
  let fur := get_forward_up_right_tensor (Vec3.neg d)
  Matrix.of fun i j =>
    if i = 3 then (if j = 3 then 1 else 0)
    else if j = 0 then (fur.2.2).compAt i
    else if j = 1 then (fur.2.1).compAt i
    else if j = 2 then (fur.1).compAt i
    else -(camPos.compAt i)

/-- Canonical extrinsics of the `.zst` branch: the assembled camera matrix is
inverted (`extrinsics.inverse()`). -/
noncomputable def zstExtrinsics (d : Vec3) : Mat4 := (zstPreInvExtrinsics d)⁻¹

/-! ### Dataset configuration and per-scene example assembly -/

/-- The fields of `DatasetRE10kCfg` read by the per-scene pipeline. -/
structure DatasetCfg where
  baseline_epsilon : ℝ
  max_fov : ℝ
  make_baseline_1 : Bool
  baseline_scale_bounds : Bool
  skip_bad_shape : Bool

/-- Translation component `M[:3, 3]` of a 4x4 extrinsic matrix. -/
def transOf (M : Mat4) : Vec3 := ⟨M 0 3, M 1 3, M 2 3⟩

/-- In-place update `extrinsics[:, :3, 3] /= scale` on one matrix. -/
noncomputable def divTrans (s : ℝ) (M : Mat4) : Mat4 :=
  Matrix.of fun i j => if i ≠ 3 ∧ j = 3 then M i j / s else M i j

/-- Tensor gather `extrinsics[indices]` over the frame dimension. -/
def gatherM (indices : List ℕ) (xs : List Mat4) : List Mat4 :=
  indices.map fun i => xs.getD i 1

/-- `DatasetRE10k.get_bound`: broadcast one scalar bound over a number of views. -/
def get_bound (value : ℝ) (num_views : ℕ) : List ℝ := List.replicate num_views value

/-- Camera-related fields of the per-scene example emitted by `__iter__`.
Image, depth and position fields are independent per-index gathers of other
arrays and are not modelled. -/
structure SceneExample where
  ctxExtrinsics : List Mat4
  tgtExtrinsics : List Mat4
  ctxNear : List ℝ
  ctxFar : List ℝ
  tgtNear : List ℝ
  tgtFar : List ℝ
  ctxIndex : List ℕ
  tgtIndex : List ℕ

/-- Baseline normalization (`# Resize the world to make the baseline 1`):
if exactly two context extrinsics were gathered and `make_baseline_1` is set,
`scale` is the norm of the difference of the two context translations
(`a, b = context_extrinsics[:, :3, 3]; scale = (a - b).norm()`); a scale below
`baseline_epsilon` skips the scene (`none`); otherwise every view's
translation is divided by `scale`. Any other context count, or a disabled
flag, leaves the extrinsics untouched with `scale = 1`. -/
noncomputable def applyBaseline (cfg : DatasetCfg) (context_extrinsics extrinsics : List Mat4) :
    Option (List Mat4 × ℝ) :=
  if context_extrinsics.length = 2 ∧ cfg.make_baseline_1 = true then
    let a := transOf (context_extrinsics.getD 0 1)
    let b := transOf (context_extrinsics.getD 1 1)
    let scale := (Vec3.sub a b).norm
    if scale < cfg.baseline_epsilon then none
    else some (extrinsics.map (divTrans scale), scale)
  else some (extrinsics, 1)

/-- The `example = {...}` dictionary construction shared by both branches:
gather context and target extrinsics from the (possibly rescaled) stack and
attach near/far bounds divided by `nf_scale`, where
`nf_scale = scale if cfg.baseline_scale_bounds else 1.0`. -/
noncomputable def assembleExample (cfg : DatasetCfg) (near far : ℝ)
    (context_indices target_indices : List ℕ) (extrinsics : List Mat4) (scale : ℝ) :
    SceneExample :=
  let nf_scale := if cfg.baseline_scale_bounds = true then scale else 1
  { ctxExtrinsics := gatherM context_indices extrinsics
    tgtExtrinsics := gatherM target_indices extrinsics
    ctxNear := (get_bound near context_indices.length).map fun v => v / nf_scale
    ctxFar := (get_bound far context_indices.length).map fun v => v / nf_scale
    tgtNear := (get_bound near target_indices.length).map fun v => v / nf_scale
    tgtFar := (get_bound far target_indices.length).map fun v => v / nf_scale
    ctxIndex := context_indices
    tgtIndex := target_indices }

/-- Per-scene body of the `.torch` branch of `__iter__`, from view sampling
onward. `sampled` is the view sampler's result (`none` models the caught
`ValueError`); `fovDeg` is the per-frame field of view in degrees
(`get_fov(intrinsics).rad2deg()`, whose defining module is outside this
repository slice); the two flags are the decoded image shape checks. The
sampler's context indices are overwritten with the literal `[0, 1]`; `none`
models `continue` (scene skipped). -/
noncomputable def stepTorch (cfg : DatasetCfg) (near far : ℝ) (extrinsics : List Mat4)
    (fovDeg : List ℝ) (sampled : Option (List ℕ × List ℕ))
    (context_image_invalid target_image_invalid : Bool) : Option SceneExample :=
  match sampled with
  | none => none
  | some (_, target_indices) =>
    let context_indices : List ℕ := [0, 1]
    if ∃ f ∈ fovDeg, cfg.max_fov < f then none
    else if cfg.skip_bad_shape = true ∧
        (context_image_invalid = true ∨ target_image_invalid = true) then none
    else
      match applyBaseline cfg (gatherM context_indices extrinsics) extrinsics with
      | none => none
      | some st => some (assembleExample cfg near far context_indices target_indices st.1 st.2)

/-- Per-scene body of the `.zst` (direction-encoded) branch of `__iter__`,
from view sampling onward. The sampler's context indices are overwritten with
the literal `[9, 15, 34, 45]`; there is no image-shape check in this branch. -/
noncomputable def stepZst (cfg : DatasetCfg) (near far : ℝ) (extrinsics : List Mat4)
    (fovDeg : List ℝ) (sampled : Option (List ℕ × List ℕ)) : Option SceneExample :=
  match sampled with
  | none => none
  | some (_, target_indices) =>
    let context_indices : List ℕ := [9, 15, 34, 45]
    if ∃ f ∈ fovDeg, cfg.max_fov < f then none
    else
      match applyBaseline cfg (gatherM context_indices extrinsics) extrinsics with
      | none => none
      | some st => some (assembleExample cfg near far context_indices target_indices st.1 st.2)

/-- Per-scene inputs of one `.torch` chunk entry. -/
structure TorchScene where
  extrinsics : List Mat4
  fovDeg : List ℝ
  sampled : Option (List ℕ × List ℕ)
  context_image_invalid : Bool
  target_image_invalid : Bool

/-- Iteration over the scenes of the `.torch` branch: each scene yields at
most one example; a skipped scene yields nothing and iteration continues. -/
noncomputable def runTorch (cfg : DatasetCfg) (near far : ℝ)
    (scenes : List TorchScene) : List SceneExample :=
  scenes.filterMap fun s =>
    stepTorch cfg near far s.extrinsics s.fovDeg s.sampled
      s.context_image_invalid s.target_image_invalid

/-! ### Pose-vector conversion (`convert_poses`) -/

/-- Intrinsics built by `convert_poses`: a 3x3 identity whose entries
`(0,0), (1,1), (0,2), (1,2)` are overwritten with
`fx, fy, cx, cy = poses[:, :4].T`. -/
def intrinsicsOf (p : Fin 18 → ℚ) : Matrix (Fin 3) (Fin 3) ℚ :=
  Matrix.of fun i j =>
    if i = 0 ∧ j = 0 then p 0
    else if i = 1 ∧ j = 1 then p 1
    else if i = 0 ∧ j = 2 then p 2
    else if i = 1 ∧ j = 2 then p 3
    else (1 : Matrix (Fin 3) (Fin 3) ℚ) i j

/-- Stored world-to-camera matrix of `convert_poses`: a 4x4 identity whose top
three rows are `poses[:, 6:]` reshaped row-major to 3x4
(`w2c[:, :3] = rearrange(poses[:, 6:], "b (h w) -> b h w", h=3, w=4)`). -/
def w2cOf (p : Fin 18 → ℚ) : Matrix (Fin 4) (Fin 4) ℚ :=
  Matrix.of fun i j =>
    if h : (i : ℕ) < 3 then p ⟨6 + 4 * (i : ℕ) + (j : ℕ), by have := j.isLt; omega⟩
    else (1 : Matrix (Fin 4) (Fin 4) ℚ) i j

/-- `DatasetRE10k.convert_poses` for one 18-element pose vector: returns
`(w2c.inverse(), intrinsics)`. -/
noncomputable def convert_poses (p : Fin 18 → ℚ) :
    Matrix (Fin 4) (Fin 4) ℚ × Matrix (Fin 3) (Fin 3) ℚ :=
  ((w2cOf p)⁻¹, intrinsicsOf p)

/-- Modelled from the spec: the claim's reading in which the 12 extrinsic
values are "the remaining entries of the 18-vector" after the 4 intrinsic
scalars, i.e. the 12 entries starting at position 4. -/
def w2cClaimed (p : Fin 18 → ℚ) : Matrix (Fin 4) (Fin 4) ℚ :=
  Matrix.of fun i j =>
    if h : (i : ℕ) < 3 then p ⟨4 + 4 * (i : ℕ) + (j : ℕ), by have := j.isLt; omega⟩
    else (1 : Matrix (Fin 4) (Fin 4) ℚ) i j

/-- Concrete pose vector whose stored extrinsic block (entries 6..17) is the
identity 3x4 block. -/
def poseId : Fin 18 → ℚ := fun i =>
  if (i : ℕ) = 6 ∨ (i : ℕ) = 11 ∨ (i : ℕ) = 16 then 1 else 0

/-! ### Worker sharding and chunk-list mutation -/

/-- Test-stage worker sharding of `__iter__`:
`[chunk for chunk_index, chunk in enumerate(chunks) if chunk_index % num_workers == id]`. -/
def workerChunks {α : Type _} (id num_workers : ℕ) (chunks : List α) : List α :=
  (chunks.enum.filter fun p => p.1 % num_workers = id).map Prod.snd

/-- Position-tagged shards kept by one worker. -/
def workerTagged {α : Type _} (id num_workers : ℕ) (chunks : List α) : List (ℕ × α) :=
  chunks.enum.filter fun p => p.1 % num_workers = id

/-- Start of a test-stage pass of `__iter__` with worker info present: the
modulo-filtered list is assigned back to `self.chunks`, and this pass then
iterates over it. Returns `(visited chunks, new self.chunks)`. -/
def testPass {α : Type _} (id num_workers : ℕ) (stored : List α) : List α × List α :=
  let filtered := workerChunks id num_workers stored
  (filtered, filtered)

/-! ### Radiance rescaling of the `.zst` decoder -/

/-- One RGB pixel of a decoded radiance image. -/
abbrev Pixel := Fin 3 → ℚ

/-- Channel `c` of every pixel of every frame of a chunk, in the order
produced by `images.reshape(-1, 3)`. -/
def channelVals (images : List (List Pixel)) (c : Fin 3) : List ℚ :=
  (images.flatMap id).map fun px => px c

/-- Maximum of a list, folding `max` over the tail from the head
(torch's `max(dim=0)`; torch rejects the empty list, for which this returns 0). -/
def listMax : List ℚ → ℚ
  | [] => 0
  | a :: t => t.foldl max a

/-- Per-channel maximum over all pixels of all frames of a chunk,
`images.reshape(-1, 3).max(dim=0)[0]`. -/
def channelMax (images : List (List Pixel)) (c : Fin 3) : ℚ :=
  listMax (channelVals images c)

/-- Radiance rescaling of the `.zst` decoder:
`new_chunk["images"] = new_chunk["images"] / new_chunk["images"].reshape(-1,3).max(dim=0)[0]`
divides every pixel channelwise by the chunk-global per-channel maximum. -/
def rescaleImages (images : List (List Pixel)) : List (List Pixel) :=
  images.map (List.map fun px c => px c / channelMax images c)

/-! ### Concrete instances used in witnesses and worked examples -/

/-- Configuration with baseline normalization and scaled bounds enabled. -/
noncomputable def cfgBase : DatasetCfg :=
  { baseline_epsilon := 0.01, max_fov := 100, make_baseline_1 := true,
    baseline_scale_bounds := true, skip_bad_shape := true }

/-- Configuration with baseline normalization disabled. -/
noncomputable def cfgPlain : DatasetCfg :=
  { baseline_epsilon := 0.01, max_fov := 150, make_baseline_1 := false,
    baseline_scale_bounds := true, skip_bad_shape := true }

/-- Extrinsic matrix with identity rotation and translation `(2, 0, 0)`. -/
noncomputable def Mt2 : Mat4 :=
  Matrix.of fun i j => if i = 0 ∧ j = 3 then 2 else (1 : Mat4) i j

/-- Two-frame scene whose translations are `(0,0,0)` and `(2,0,0)`. -/
noncomputable def extrBase : List Mat4 := [1, Mt2]

/-- Example emitted by the concrete `.zst` witness run. -/
noncomputable def exZst : SceneExample :=
  { ctxExtrinsics := [1, 1, 1, 1]
    tgtExtrinsics := []
    ctxNear := [1, 1, 1, 1]
    ctxFar := [2, 2, 2, 2]
    tgtNear := []
    tgtFar := []
    ctxIndex := [9, 15, 34, 45]
    tgtIndex := [] }

/-- Example emitted by the concrete `.torch` witness run. -/
noncomputable def exTorch : SceneExample :=
  { ctxExtrinsics := [1, 1]
    tgtExtrinsics := [1]
    ctxNear := [1, 1]
    ctxFar := [2, 2]
    tgtNear := [1]
    tgtFar := [2]
    ctxIndex := [0, 1]
    tgtIndex := [7] }

/-- Concrete two-frame chunk of single-pixel radiance frames. -/
def imgs9 : List (List Pixel) := [[fun _ => 2], [fun _ => 1]]

/-- A single radiance frame with one pixel of value 1 on every channel. -/
def frame1 : List Pixel := [fun _ => 1]

/-- A single radiance frame with one pixel of value 2 on every channel. -/
def frame2 : List Pixel := [fun _ => 2]

/-! ## Theorems -/

theorem Vec3.normSq_nonneg (v : Vec3) : 0 ≤ v.normSq := by
  have hx := mul_self_nonneg v.x
  have hy := mul_self_nonneg v.y
  have hz := mul_self_nonneg v.z
  unfold normSq; linarith

theorem Vec3.mul_self_norm (v : Vec3) : v.norm * v.norm = v.normSq :=
  Real.mul_self_sqrt (normSq_nonneg v)

theorem Vec3.norm_pos (v : Vec3) (h : 0 < v.normSq) : 0 < v.norm := Real.sqrt_pos.mpr h

theorem Vec3.norm_eq_one (v : Vec3) (h : v.normSq = 1) : v.norm = 1 := by
  unfold norm; rw [h]; exact Real.sqrt_one

theorem normSq_normalize (v : Vec3) (h : 0 < v.normSq) : (normalize v).normSq = 1 := by
  have hn : v.norm ≠ 0 := ne_of_gt (Vec3.norm_pos v h)
  have hm : v.norm * v.norm = v.normSq := Vec3.mul_self_norm v
  show v.x / v.norm * (v.x / v.norm) + v.y / v.norm * (v.y / v.norm) +
      v.z / v.norm * (v.z / v.norm) = 1
  rw [div_mul_div_comm, div_mul_div_comm, div_mul_div_comm, div_add_div_same,
    div_add_div_same, hm]
  exact div_self (ne_of_gt h)

theorem dot_normalize_left (u w : Vec3) :
    Vec3.dot (normalize u) w = Vec3.dot u w / u.norm := by
  unfold normalize Vec3.dot
  ring

theorem dot_normalize_right (u w : Vec3) :
    Vec3.dot w (normalize u) = Vec3.dot w u / u.norm := by
  unfold normalize Vec3.dot
  ring

theorem dot_cross_left (u v : Vec3) : Vec3.dot (Vec3.cross u v) u = 0 := by
  unfold Vec3.dot Vec3.cross
  ring

theorem dot_cross_right (u v : Vec3) : Vec3.dot (Vec3.cross u v) v = 0 := by
  unfold Vec3.dot Vec3.cross
  ring

theorem dot_left_cross (u v : Vec3) : Vec3.dot u (Vec3.cross u v) = 0 := by
  unfold Vec3.dot Vec3.cross
  ring

theorem normSq_cross (u v : Vec3) :
    (Vec3.cross u v).normSq = u.normSq * v.normSq - Vec3.dot u v * Vec3.dot u v := by
  unfold Vec3.normSq Vec3.cross Vec3.dot
  ring

/-- C3: for every input direction vector that is not parallel to the `+Z`
reference axis (equivalently, whose x- and y-components are not both zero),
`get_forward_up_right_tensor` returns `forward = normalize(input)` together
with `up` and `right` such that the three vectors are pairwise orthogonal
unit vectors. -/
theorem forward_up_right_orthonormal (v : Vec3) (h : ¬ (v.x = 0 ∧ v.y = 0)) :
    (get_forward_up_right_tensor v).1 = normalize v
    ∧ Vec3.dot (get_forward_up_right_tensor v).1 (get_forward_up_right_tensor v).2.1 = 0
    ∧ Vec3.dot (get_forward_up_right_tensor v).1 (get_forward_up_right_tensor v).2.2 = 0
    ∧ Vec3.dot (get_forward_up_right_tensor v).2.1 (get_forward_up_right_tensor v).2.2 = 0
    ∧ Vec3.norm (get_forward_up_right_tensor v).1 = 1
    ∧ Vec3.norm (get_forward_up_right_tensor v).2.1 = 1
    ∧ Vec3.norm (get_forward_up_right_tensor v).2.2 = 1 := by
  have hv : 0 < v.normSq := by
    rcases not_and_or.mp h with hx | hy
    · have := mul_self_pos.mpr hx
      have hy' := mul_self_nonneg v.y
      have hz' := mul_self_nonneg v.z
      unfold Vec3.normSq; linarith
    · have := mul_self_pos.mpr hy
      have hx' := mul_self_nonneg v.x
      have hz' := mul_self_nonneg v.z
      unfold Vec3.normSq; linarith
  have hnv : v.norm ≠ 0 := ne_of_gt (Vec3.norm_pos v hv)
  have hf1 : (normalize v).normSq = 1 := normSq_normalize v hv
  -- the first cross product is (f.y, -f.x, 0) and is nonzero
  have hc : Vec3.cross (normalize v) ⟨0, 0, 1⟩ =
      ⟨(normalize v).y, -(normalize v).x, 0⟩ := by
    unfold Vec3.cross
    ext <;> simp
  have hcpos : 0 < (Vec3.cross (normalize v) ⟨0, 0, 1⟩).normSq := by
    rw [hc]
    rcases not_and_or.mp h with hx | hy
    · have hfx : (normalize v).x ≠ 0 := div_ne_zero hx hnv
      have := mul_self_pos.mpr hfx
      have h1 := mul_self_nonneg (normalize v).y
      unfold Vec3.normSq; simp only; nlinarith
    · have hfy : (normalize v).y ≠ 0 := div_ne_zero hy hnv
      have := mul_self_pos.mpr hfy
      have h1 := mul_self_nonneg (normalize v).x
      unfold Vec3.normSq; simp only; nlinarith
  have hr1 : (normalize (Vec3.cross (normalize v) ⟨0, 0, 1⟩)).normSq = 1 :=
    normSq_normalize _ hcpos
  -- forward ⬝ right = 0
  have hfr : Vec3.dot (normalize v) (normalize (Vec3.cross (normalize v) ⟨0, 0, 1⟩)) = 0 := by
    rw [dot_normalize_right, dot_left_cross, zero_div]
  -- the second cross product has unit norm squared
  have hw : (Vec3.cross (normalize v)
      (normalize (Vec3.cross (normalize v) ⟨0, 0, 1⟩))).normSq = 1 := by
    rw [normSq_cross, hf1, hr1, hfr]
    ring
  have hwpos : 0 < (Vec3.cross (normalize v)
      (normalize (Vec3.cross (normalize v) ⟨0, 0, 1⟩))).normSq := by
    rw [hw]; norm_num
  refine ⟨rfl, ?_, ?_, ?_, ?_, ?_, ?_⟩
  · -- forward ⬝ up = 0
    show Vec3.dot (normalize v) (normalize (Vec3.cross (normalize v)
      (normalize (Vec3.cross (normalize v) ⟨0, 0, 1⟩)))) = 0
    rw [dot_normalize_right, dot_left_cross, zero_div]
  · -- forward ⬝ right = 0
    exact hfr
  · -- up ⬝ right = 0
    show Vec3.dot (normalize (Vec3.cross (normalize v)
      (normalize (Vec3.cross (normalize v) ⟨0, 0, 1⟩))))
      (normalize (Vec3.cross (normalize v) ⟨0, 0, 1⟩)) = 0
    rw [dot_normalize_left, dot_cross_right, zero_div]
  · exact Vec3.norm_eq_one _ hf1
  · exact Vec3.norm_eq_one _ (normSq_normalize _ hwpos)
  · exact Vec3.norm_eq_one _ hr1

/-- Witness for C3 at the concrete direction `(1, 0, 0)`. -/
theorem forward_up_right_orthonormal_witness :
    ¬ (((⟨1, 0, 0⟩ : Vec3)).x = 0 ∧ ((⟨1, 0, 0⟩ : Vec3)).y = 0)
    ∧ ((get_forward_up_right_tensor ⟨1, 0, 0⟩).1 = normalize ⟨1, 0, 0⟩
      ∧ Vec3.dot (get_forward_up_right_tensor ⟨1, 0, 0⟩).1
          (get_forward_up_right_tensor ⟨1, 0, 0⟩).2.1 = 0
      ∧ Vec3.dot (get_forward_up_right_tensor ⟨1, 0, 0⟩).1
          (get_forward_up_right_tensor ⟨1, 0, 0⟩).2.2 = 0
      ∧ Vec3.dot (get_forward_up_right_tensor ⟨1, 0, 0⟩).2.1
          (get_forward_up_right_tensor ⟨1, 0, 0⟩).2.2 = 0
      ∧ Vec3.norm (get_forward_up_right_tensor ⟨1, 0, 0⟩).1 = 1
      ∧ Vec3.norm (get_forward_up_right_tensor ⟨1, 0, 0⟩).2.1 = 1
      ∧ Vec3.norm (get_forward_up_right_tensor ⟨1, 0, 0⟩).2.2 = 1) :=
  ⟨by norm_num, forward_up_right_orthonormal ⟨1, 0, 0⟩ (by norm_num)⟩

/-- C4 counterexample: for the direction-encoded frame whose direction vector
at the principal pixel is `(0, 0, -1)`, the translation column of the
assembled camera matrix (pre-inversion) is `0.8` in its z-entry, not `-8`,
and the camera center actually used is not `(0, 0, 8)` (the value `0.8 * (0,0,10)`
posited by the claim): the center is derived from the direction sample itself. -/
theorem zst_translation_column_counterexample :
    zstPreInvExtrinsics ⟨0, 0, -1⟩ 2 3 ≠ -8
    ∧ zstCameraPosition ⟨0, 0, -1⟩ ≠ ⟨0, 0, 8⟩ := by
  constructor
  · have h : zstPreInvExtrinsics ⟨0, 0, -1⟩ 2 3 = 0.8 := by
      simp [zstPreInvExtrinsics, zstCameraPosition, Vec3.smul, Vec3.compAt]
    rw [h]; norm_num
  · intro hEq
    have hz := congrArg Vec3.z hEq
    simp [zstCameraPosition, Vec3.smul] at hz
    norm_num at hz

/-- C4 (amended): for a direction-encoded frame whose direction vector at the
principal pixel is `(0, 0, -1)`, the derived forward axis is `(0, 0, 1)`
(the negated direction sample, normalized), the camera center used is the
direction sample scaled by `0.8`, i.e. `(0, 0, -0.8)`, and the translation
column of the camera matrix before inversion is the negated scaled center,
i.e. `(0, 0, 0.8)`. -/
theorem zst_principal_frame :
    (get_forward_up_right_tensor (Vec3.neg ⟨0, 0, -1⟩)).1 = ⟨0, 0, 1⟩
    ∧ zstCameraPosition ⟨0, 0, -1⟩ = Vec3.smul 0.8 ⟨0, 0, -1⟩
    ∧ zstCameraPosition ⟨0, 0, -1⟩ = ⟨0, 0, -0.8⟩
    ∧ zstPreInvExtrinsics ⟨0, 0, -1⟩ 0 3 = 0
    ∧ zstPreInvExtrinsics ⟨0, 0, -1⟩ 1 3 = 0
    ∧ zstPreInvExtrinsics ⟨0, 0, -1⟩ 2 3 = 0.8 := by
  have hneg : Vec3.neg ⟨0, 0, -1⟩ = (⟨0, 0, 1⟩ : Vec3) := by
    unfold Vec3.neg; ext <;> norm_num
  have hnorm : (⟨0, 0, 1⟩ : Vec3).norm = 1 := by
    unfold Vec3.norm Vec3.normSq
    norm_num
  refine ⟨?_, ?_, ?_, ?_, ?_, ?_⟩
  · show normalize (Vec3.neg ⟨0, 0, -1⟩) = _
    rw [hneg]
    unfold normalize
    rw [hnorm]
    ext <;> norm_num
  · rfl
  · unfold zstCameraPosition Vec3.smul
    ext <;> norm_num
  · simp [zstPreInvExtrinsics, zstCameraPosition, Vec3.smul, Vec3.compAt]
  · simp [zstPreInvExtrinsics, zstCameraPosition, Vec3.smul, Vec3.compAt]
  · simp [zstPreInvExtrinsics, zstCameraPosition, Vec3.smul, Vec3.compAt]

/-! ### Worker sharding -/

theorem workerChunks_eq_tagged_map {α : Type _} (id num_workers : ℕ) (chunks : List α) :
    workerChunks id num_workers chunks = (workerTagged id num_workers chunks).map Prod.snd :=
  rfl

theorem workerChunks_sublist {α : Type _} (id num_workers : ℕ) (chunks : List α) :
    (workerChunks id num_workers chunks).Sublist chunks := by
  have h1 : ((chunks.enum.filter fun p => p.1 % num_workers = id).map Prod.snd).Sublist
      (chunks.enum.map Prod.snd) := (List.filter_sublist _).map Prod.snd
  rwa [List.enum_map_snd] at h1

/-- C7: position-modulo worker sharding partitions the shard list: taken over
all workers `0 .. num_workers - 1`, the assigned sublists cover the original
list exactly once (their concatenation is a permutation of it), and the
position-tagged assignments of two distinct workers are disjoint. -/
theorem worker_partition {α : Type _} (num_workers : ℕ) (chunks : List α)
    (hW : 0 < num_workers) :
    List.Perm
      ((List.range num_workers).flatMap fun id => workerChunks id num_workers chunks)
      chunks
    ∧ ∀ i j : ℕ, i ≠ j → ∀ p : ℕ × α,
        p ∈ workerTagged i num_workers chunks → p ∉ workerTagged j num_workers chunks := by
  have hdisj : ∀ i j : ℕ, i ≠ j → ∀ p : ℕ × α,
      p ∈ workerTagged i num_workers chunks → p ∉ workerTagged j num_workers chunks := by
    intro i j hij p hpi hpj
    have h1 := (List.mem_filter.mp hpi).2
    have h2 := (List.mem_filter.mp hpj).2
    simp only [decide_eq_true_eq] at h1 h2
    exact hij (h1.symm.trans h2)
  have hen : chunks.enum.Nodup := (List.nodup_enum_map_fst chunks).of_map
  have hnd : ((List.range num_workers).flatMap
      fun id => workerTagged id num_workers chunks).Nodup := by
    refine List.nodup_flatMap.mpr ⟨fun i _ => hen.filter _, ?_⟩
    refine (List.pairwise_lt_range num_workers).imp ?_
    intro a b hab p hpa hpb
    exact hdisj a b (Nat.ne_of_lt hab) p hpa hpb
  have hmem : ∀ q : ℕ × α,
      q ∈ ((List.range num_workers).flatMap fun id => workerTagged id num_workers chunks) ↔
      q ∈ chunks.enum := by
    intro q
    constructor
    · intro hq
      obtain ⟨id, -, hq2⟩ := List.mem_flatMap.mp hq
      exact (List.mem_filter.mp hq2).1
    · intro hq
      refine List.mem_flatMap.mpr
        ⟨q.1 % num_workers, List.mem_range.mpr (Nat.mod_lt _ hW),
          List.mem_filter.mpr ⟨hq, by simp⟩⟩
  have hperm : List.Perm
      ((List.range num_workers).flatMap fun id => workerTagged id num_workers chunks)
      chunks.enum := (List.perm_ext_iff_of_nodup hnd hen).mpr hmem
  constructor
  · have hval : ((List.range num_workers).flatMap fun id => workerChunks id num_workers chunks)
        = ((List.range num_workers).flatMap
            fun id => workerTagged id num_workers chunks).map Prod.snd := by
      rw [List.map_flatMap]
      rfl
    have := hperm.map Prod.snd
    rw [List.enum_map_snd] at this
    rw [hval]
    exact this
  · exact hdisj

/-- Witness for C7 with three shards split across two workers. -/
theorem worker_partition_witness :
    0 < 2
    ∧ (List.Perm ((List.range 2).flatMap fun id => workerChunks id 2 [10, 20, 30])
        [10, 20, 30]
      ∧ ∀ i j : ℕ, i ≠ j → ∀ p : ℕ × ℕ,
          p ∈ workerTagged i 2 [10, 20, 30] → p ∉ workerTagged j 2 [10, 20, 30]) :=
  ⟨by norm_num, worker_partition 2 [10, 20, 30] (by norm_num)⟩

/-! ### Chunk-list mutation across passes -/

/-- C10 counterexample: for the single-shard list `[0]` owned by worker 0 of
2 workers, the second pass visits exactly the same list as the first pass
(`[0]` both times), so the second pass does not visit a strict subset of the
first pass's shards. -/
theorem chunk_mutation_counterexample :
    (testPass 0 2 ((testPass 0 2 [(0 : ℕ)]).2)).1 = (testPass 0 2 [(0 : ℕ)]).1
    ∧ (testPass 0 2 [(0 : ℕ)]).1 = [0] :=
  ⟨rfl, rfl⟩

/-- C10 (amended): `__iter__` assigns the worker-filtered list back to
`self.chunks`, so a second test-stage pass filters the already-filtered list:
it visits a sublist of the first pass's shards, and the sublist is strictly
shorter whenever the first pass kept at least two shards, or the worker id is
nonzero and the first pass kept at least one shard (with a single kept shard
and worker id 0, the two passes coincide). -/
theorem chunk_mutation_second_pass {α : Type _} (id num_workers : ℕ) (stored : List α)
    (hW : 2 ≤ num_workers) :
    (testPass id num_workers (testPass id num_workers stored).2).1
      = workerChunks id num_workers (workerChunks id num_workers stored)
    ∧ (workerChunks id num_workers (workerChunks id num_workers stored)).Sublist
        (workerChunks id num_workers stored)
    ∧ (2 ≤ (workerChunks id num_workers stored).length
        ∨ (id ≠ 0 ∧ workerChunks id num_workers stored ≠ []) →
        (workerChunks id num_workers (workerChunks id num_workers stored)).length
          < (workerChunks id num_workers stored).length) := by
  refine ⟨rfl, workerChunks_sublist id num_workers _, ?_⟩
  intro hcase
  set L := workerChunks id num_workers stored with hL
  have hlen : (workerChunks id num_workers L).length
      = (L.enum.filter fun p => p.1 % num_workers = id).length := by
    rw [workerChunks_eq_tagged_map, List.length_map]; rfl
  have hgoal : ∀ k : ℕ, ∀ hk : k < L.length, ¬ (k % num_workers = id) →
      (workerChunks id num_workers L).length < L.length := by
    intro k hk hkid
    have hLe : L.enum.length = L.length := List.enum_length
    have hk2 : k < L.enum.length := by rwa [hLe]
    rw [hlen, ← hLe]
    refine List.length_filter_lt_length_iff_exists.mpr ⟨(k, L[k]), ?_, ?_⟩
    · have hget : L.enum.get ⟨k, hk2⟩ = (k, L[k]) := by
        simp
      rw [← hget]
      exact List.get_mem _ _ hk2
    · simpa using hkid
  rcases hcase with h2 | ⟨hid, hne⟩
  · by_cases hid : id = 0
    · refine hgoal 1 (by omega) ?_
      rw [Nat.mod_eq_of_lt (by omega), hid]
      norm_num
    · refine hgoal 0 (by omega) ?_
      rw [Nat.zero_mod]
      exact fun h => hid h.symm
  · refine hgoal 0 ?_ ?_
    · have : L ≠ [] := hne
      have := List.length_pos.mpr this
      omega
    · rw [Nat.zero_mod]
      exact fun h => hid h.symm

/-- Witness for C10 at worker 1 of 2 on the four-shard list `[5, 6, 7, 8]`. -/
theorem chunk_mutation_second_pass_witness :
    2 ≤ 2
    ∧ (workerChunks 1 2 (workerChunks 1 2 [(5 : ℕ), 6, 7, 8])).length
        < (workerChunks 1 2 [(5 : ℕ), 6, 7, 8]).length :=
  ⟨by norm_num,
    (chunk_mutation_second_pass 1 2 [(5 : ℕ), 6, 7, 8] (by norm_num)).2.2
      (Or.inl (by decide))⟩

/-! ### Pose-vector conversion -/

theorem w2cOf_apply (p : Fin 18 → ℚ) (i j : Fin 4) (hi : (i : ℕ) < 3) (k : Fin 18)
    (hk : (k : ℕ) = 6 + 4 * (i : ℕ) + (j : ℕ)) : w2cOf p i j = p k := by
  show (if h : (i : ℕ) < 3
      then p ⟨6 + 4 * (i : ℕ) + (j : ℕ), by have := j.isLt; omega⟩
      else (1 : Matrix (Fin 4) (Fin 4) ℚ) i j) = p k
  rw [dif_pos hi]
  exact congrArg p (Fin.ext hk.symm)

theorem w2cOf_poseId : w2cOf poseId = 1 := by
  ext i j
  fin_cases i <;> fin_cases j <;> decide

/-- C2 counterexample: for the concrete pose vector `poseId` (whose entries
6, 11, 16 are 1 and all others 0), reading the 12 extrinsic values as "the
remaining entries after the 4 intrinsic scalars" (entries 4..15, `w2cClaimed`)
disagrees with the code, which reads entries 6..17: the stored matrices
differ, and the returned canonical extrinsics are not the inverse of the
claimed matrix. -/
theorem convert_poses_counterexample :
    (convert_poses poseId).1 ≠ (w2cClaimed poseId)⁻¹
    ∧ w2cOf poseId ≠ w2cClaimed poseId := by
  have hdet : (w2cClaimed poseId).det = 0 := by
    apply Matrix.det_eq_zero_of_row_eq_zero 2
    intro j
    fin_cases j <;> decide
  have hinv : (w2cClaimed poseId)⁻¹ = 0 := by
    apply Matrix.nonsing_inv_apply_not_isUnit
    rw [hdet]
    simp
  constructor
  · show (w2cOf poseId)⁻¹ ≠ (w2cClaimed poseId)⁻¹
    rw [w2cOf_poseId, inv_one, hinv]
    exact one_ne_zero
  · rw [w2cOf_poseId]
    intro hEq
    have h00 := congrArg (fun M : Matrix (Fin 4) (Fin 4) ℚ => M 0 0) hEq
    revert h00
    decide

/-- C2 (amended): `convert_poses` splits an 18-element pose vector into 4
intrinsic scalars `fx, fy, cx, cy` (entries 0..3) placed at positions
`(0,0), (1,1), (0,2), (1,2)` of an otherwise-identity 3x3 matrix, and 12
extrinsic values taken from entries 6..17 (entries 4 and 5 are ignored)
reshaped row-major into the top three rows of a 4x4 matrix with bottom row
`[0,0,0,1]`; the returned canonical extrinsics are the matrix inverse of that
stored matrix (two-sided, whenever the stored matrix is invertible). -/
theorem convert_poses_layout (p : Fin 18 → ℚ) (h : IsUnit (w2cOf p).det) :
    ((convert_poses p).2 = intrinsicsOf p
      ∧ intrinsicsOf p 0 0 = p 0 ∧ intrinsicsOf p 1 1 = p 1
      ∧ intrinsicsOf p 0 2 = p 2 ∧ intrinsicsOf p 1 2 = p 3
      ∧ intrinsicsOf p 0 1 = 0 ∧ intrinsicsOf p 1 0 = 0
      ∧ intrinsicsOf p 2 0 = 0 ∧ intrinsicsOf p 2 1 = 0 ∧ intrinsicsOf p 2 2 = 1)
    ∧ (w2cOf p 0 0 = p 6 ∧ w2cOf p 0 1 = p 7 ∧ w2cOf p 0 2 = p 8 ∧ w2cOf p 0 3 = p 9
      ∧ w2cOf p 1 0 = p 10 ∧ w2cOf p 1 1 = p 11 ∧ w2cOf p 1 2 = p 12 ∧ w2cOf p 1 3 = p 13
      ∧ w2cOf p 2 0 = p 14 ∧ w2cOf p 2 1 = p 15 ∧ w2cOf p 2 2 = p 16 ∧ w2cOf p 2 3 = p 17
      ∧ w2cOf p 3 0 = 0 ∧ w2cOf p 3 1 = 0 ∧ w2cOf p 3 2 = 0 ∧ w2cOf p 3 3 = 1)
    ∧ (convert_poses p).1 * w2cOf p = 1
    ∧ w2cOf p * (convert_poses p).1 = 1 := by
  refine ⟨⟨rfl, ?_, ?_, ?_, ?_, ?_, ?_, ?_, ?_, ?_⟩, ?_, ?_, ?_⟩
  · simp [intrinsicsOf]
  · simp [intrinsicsOf]
  · simp [intrinsicsOf]
  · simp [intrinsicsOf]
  · simp [intrinsicsOf, Matrix.one_apply]
  · simp [intrinsicsOf, Matrix.one_apply]
  · simp [intrinsicsOf, Matrix.one_apply]
  · simp [intrinsicsOf, Matrix.one_apply]
  · simp [intrinsicsOf, Matrix.one_apply]
  · refine ⟨?_, ?_, ?_, ?_, ?_, ?_, ?_, ?_, ?_, ?_, ?_, ?_, ?_, ?_, ?_, ?_⟩ <;>
      first
        | exact w2cOf_apply p _ _ (by decide) _ (by decide)
        | (simp [w2cOf, Matrix.one_apply]
           intro hcon
           exact absurd hcon (by decide))
  · exact Matrix.nonsing_inv_mul _ h
  · exact Matrix.mul_nonsing_inv _ h

/-- Witness for C2 at the concrete pose vector `poseId`, whose stored
extrinsic matrix is the identity. -/
theorem convert_poses_layout_witness :
    IsUnit (w2cOf poseId).det ∧ (convert_poses poseId).1 * w2cOf poseId = 1 := by
  have hU : IsUnit (w2cOf poseId).det := by
    rw [w2cOf_poseId, Matrix.det_one]
    exact isUnit_one
  exact ⟨hU, (convert_poses_layout poseId hU).2.2.1⟩

/-! ### Per-scene step inversion -/

theorem stepTorch_some_iff (cfg : DatasetCfg) (near far : ℝ) (extr : List Mat4)
    (fovs : List ℝ) (ctx0 tgt : List ℕ) (civ tiv : Bool) (e : SceneExample) :
    stepTorch cfg near far extr fovs (some (ctx0, tgt)) civ tiv = some e ↔
      (¬ ∃ f ∈ fovs, cfg.max_fov < f)
      ∧ ¬ (cfg.skip_bad_shape = true ∧ (civ = true ∨ tiv = true))
      ∧ ∃ st, applyBaseline cfg (gatherM [0, 1] extr) extr = some st
          ∧ e = assembleExample cfg near far [0, 1] tgt st.1 st.2 := by
  simp only [stepTorch]
  by_cases h1 : ∃ f ∈ fovs, cfg.max_fov < f
  · rw [if_pos h1]
    simp [h1]
  · rw [if_neg h1]
    by_cases h2 : cfg.skip_bad_shape = true ∧ (civ = true ∨ tiv = true)
    · rw [if_pos h2]
      simp [h1, h2]
    · rw [if_neg h2]
      cases hb : applyBaseline cfg (gatherM [0, 1] extr) extr with
      | none => simp [h1, h2, hb]
      | some st =>
        simp only [h1, h2, hb, not_false_iff, true_and]
        constructor
        · intro he
          exact ⟨st, rfl, (Option.some.inj he).symm⟩
        · rintro ⟨st', hst', he⟩
          obtain rfl := Option.some.inj hst'
          rw [he]

theorem stepZst_some_iff (cfg : DatasetCfg) (near far : ℝ) (extr : List Mat4)
    (fovs : List ℝ) (ctx0 tgt : List ℕ) (e : SceneExample) :
    stepZst cfg near far extr fovs (some (ctx0, tgt)) = some e ↔
      (¬ ∃ f ∈ fovs, cfg.max_fov < f)
      ∧ ∃ st, applyBaseline cfg (gatherM [9, 15, 34, 45] extr) extr = some st
          ∧ e = assembleExample cfg near far [9, 15, 34, 45] tgt st.1 st.2 := by
  simp only [stepZst]
  by_cases h1 : ∃ f ∈ fovs, cfg.max_fov < f
  · rw [if_pos h1]
    simp [h1]
  · rw [if_neg h1]
    cases hb : applyBaseline cfg (gatherM [9, 15, 34, 45] extr) extr with
    | none => simp [h1, hb]
    | some st =>
      simp only [h1, hb, not_false_iff, true_and]
      constructor
      · intro he
        exact ⟨st, rfl, (Option.some.inj he).symm⟩
      · rintro ⟨st', hst', he⟩
        obtain rfl := Option.some.inj hst'
        rw [he]

/-! ### Fixed context override -/

/-- C5: whenever the view sampler returns successfully, the context index
list actually used for the rest of the pipeline (and stored in the emitted
example) is the fixed literal list — `[0, 1]` in the `.torch` path and
`[9, 15, 34, 45]` in the `.zst` path — independent of the sampler's context
indices, while the sampler's target indices are kept unchanged. -/
theorem fixed_context_override (cfg : DatasetCfg) (near far : ℝ) (extr : List Mat4)
    (fovs : List ℝ) (ctx0 tgt : List ℕ) (civ tiv : Bool) :
    (∀ e, stepTorch cfg near far extr fovs (some (ctx0, tgt)) civ tiv = some e →
        e.ctxIndex = [0, 1] ∧ e.tgtIndex = tgt)
    ∧ (∀ e, stepZst cfg near far extr fovs (some (ctx0, tgt)) = some e →
        e.ctxIndex = [9, 15, 34, 45] ∧ e.tgtIndex = tgt) := by
  constructor
  · intro e he
    obtain ⟨-, -, st, -, rfl⟩ := (stepTorch_some_iff cfg near far extr fovs ctx0 tgt civ tiv e).mp he
    exact ⟨rfl, rfl⟩
  · intro e he
    obtain ⟨-, st, -, rfl⟩ := (stepZst_some_iff cfg near far extr fovs ctx0 tgt e).mp he
    exact ⟨rfl, rfl⟩

theorem stepTorch_witness_run :
    stepTorch cfgPlain 1 2 [] [] (some ([5], [7])) false false = some exTorch := by
  rw [stepTorch_some_iff]
  refine ⟨by simp, by simp, ([], 1), ?_, ?_⟩
  · simp [applyBaseline, cfgPlain, gatherM]
  · simp [assembleExample, exTorch, gatherM, get_bound, cfgPlain]

theorem stepZst_witness_run :
    stepZst cfgBase 1 2 [] [] (some ([], [])) = some exZst := by
  rw [stepZst_some_iff]
  refine ⟨by simp, ([], 1), ?_, ?_⟩
  · simp [applyBaseline, cfgBase, gatherM]
  · simp [assembleExample, exZst, gatherM, get_bound, cfgBase]

/-- Witness for C5: concrete successful runs of both paths, with sampler
output `([5], [7])` (torch) and `([], [])` (zst). -/
theorem fixed_context_override_witness :
    (exTorch.ctxIndex = [0, 1] ∧ exTorch.tgtIndex = [7])
    ∧ (exZst.ctxIndex = [9, 15, 34, 45] ∧ exZst.tgtIndex = []) :=
  ⟨(fixed_context_override cfgPlain 1 2 [] [] [5] [7] false false).1 exTorch
      stepTorch_witness_run,
    (fixed_context_override cfgBase 1 2 [] [] [] [] false false).2 exZst
      stepZst_witness_run⟩

/-! ### Field-of-view rejection -/

theorem stepTorch_none_of_fov (cfg : DatasetCfg) (near far : ℝ) (extr : List Mat4)
    (fovs : List ℝ) (ctx0 tgt : List ℕ) (civ tiv : Bool)
    (h : ∃ f ∈ fovs, cfg.max_fov < f) :
    stepTorch cfg near far extr fovs (some (ctx0, tgt)) civ tiv = none := by
  simp only [stepTorch]
  rw [if_pos h]

theorem stepZst_none_of_fov (cfg : DatasetCfg) (near far : ℝ) (extr : List Mat4)
    (fovs : List ℝ) (ctx0 tgt : List ℕ)
    (h : ∃ f ∈ fovs, cfg.max_fov < f) :
    stepZst cfg near far extr fovs (some (ctx0, tgt)) = none := by
  simp only [stepZst]
  rw [if_pos h]

/-- C6: after view selection succeeds, if a retained frame's field of view in
degrees exceeds `cfg.max_fov`, the scene is skipped in both format paths (the
per-scene step yields nothing), and iteration continues with the remaining
scenes instead of aborting (the run over a scene list splits around the
rejected scene). -/
theorem fov_rejection (cfg : DatasetCfg) (near far : ℝ) (s : TorchScene)
    (ctx0 tgt : List ℕ) (i : ℕ)
    (hs : s.sampled = some (ctx0, tgt))
    (_hret : i ∈ [0, 1] ++ tgt)
    (hlen : i < s.fovDeg.length)
    (hfov : cfg.max_fov < s.fovDeg.getD i 0) :
    stepTorch cfg near far s.extrinsics s.fovDeg s.sampled
        s.context_image_invalid s.target_image_invalid = none
    ∧ (∀ extr2 : List Mat4, stepZst cfg near far extr2 s.fovDeg s.sampled = none)
    ∧ ∀ pre post : List TorchScene,
        runTorch cfg near far (pre ++ s :: post)
          = runTorch cfg near far pre ++ runTorch cfg near far post := by
  have hex : ∃ f ∈ s.fovDeg, cfg.max_fov < f := by
    refine ⟨s.fovDeg.getD i 0, ?_, hfov⟩
    rw [List.getD_eq_getElem _ _ hlen]
    exact List.getElem_mem _
  have hnone : stepTorch cfg near far s.extrinsics s.fovDeg s.sampled
      s.context_image_invalid s.target_image_invalid = none := by
    rw [hs]
    exact stepTorch_none_of_fov cfg near far s.extrinsics s.fovDeg ctx0 tgt _ _ hex
  refine ⟨hnone, ?_, ?_⟩
  · intro extr2
    rw [hs]
    exact stepZst_none_of_fov cfg near far extr2 s.fovDeg ctx0 tgt hex
  · intro pre post
    unfold runTorch
    rw [List.filterMap_append]
    have hcons : List.filterMap
        (fun t : TorchScene => stepTorch cfg near far t.extrinsics t.fovDeg t.sampled
          t.context_image_invalid t.target_image_invalid) (s :: post)
        = List.filterMap
          (fun t : TorchScene => stepTorch cfg near far t.extrinsics t.fovDeg t.sampled
            t.context_image_invalid t.target_image_invalid) post :=
      List.filterMap_cons_none hnone
    rw [hcons]

/-- Witness for C6: a single-frame scene whose field of view is 170 degrees
under a 150-degree cap is skipped. -/
theorem fov_rejection_witness :
    stepTorch cfgPlain 1 2 [] [170] (some ([], [0])) false false = none :=
  (fov_rejection cfgPlain 1 2
      { extrinsics := [], fovDeg := [170], sampled := some ([], [0]),
        context_image_invalid := false, target_image_invalid := false }
      [] [0] 0 rfl (by norm_num) (by norm_num)
      (by show cfgPlain.max_fov < 170; rw [show cfgPlain.max_fov = 150 from rfl]; norm_num)).1

/-! ### The `.zst` path never rescales -/

/-- C8: every example emitted by the direction-encoded (`.zst`) path is
un-rescaled: the overridden context list has length 4, so the baseline branch
(which requires exactly two context views) never fires — the computed scale
is 1, the emitted extrinsics are gathered from the input stack unchanged, and
the near/far bounds equal the raw bounds — regardless of the
`make_baseline_1` and `baseline_scale_bounds` settings. -/
theorem zst_never_rescaled (cfg : DatasetCfg) (near far : ℝ) (extr : List Mat4)
    (fovs : List ℝ) (sampled : Option (List ℕ × List ℕ)) (e : SceneExample)
    (he : stepZst cfg near far extr fovs sampled = some e) :
    applyBaseline cfg (gatherM [9, 15, 34, 45] extr) extr = some (extr, 1)
    ∧ e.ctxExtrinsics = gatherM [9, 15, 34, 45] extr
    ∧ e.tgtExtrinsics = gatherM e.tgtIndex extr
    ∧ e.ctxNear = List.replicate 4 near ∧ e.ctxFar = List.replicate 4 far
    ∧ e.tgtNear = List.replicate e.tgtIndex.length near
    ∧ e.tgtFar = List.replicate e.tgtIndex.length far := by
  have hb' : applyBaseline cfg (gatherM [9, 15, 34, 45] extr) extr = some (extr, 1) := by
    unfold applyBaseline
    rw [if_neg]
    intro hcon
    have hlen : (gatherM [9, 15, 34, 45] extr).length = 4 := by
      simp [gatherM]
    rw [hlen] at hcon
    exact absurd hcon.1 (by norm_num)
  cases sampled with
  | none => simp [stepZst] at he
  | some st =>
    obtain ⟨ctx0, tgt⟩ := st
    obtain ⟨-, st2, hb, rfl⟩ :=
      (stepZst_some_iff cfg near far extr fovs ctx0 tgt e).mp he
    rw [hb'] at hb
    obtain rfl := Option.some.inj hb
    refine ⟨hb', rfl, rfl, ?_, ?_, ?_, ?_⟩ <;>
      simp [assembleExample, get_bound, ite_self]

/-- Witness for C8: the concrete `.zst` run with baseline normalization and
scaled bounds both enabled still emits raw bounds and untouched extrinsics. -/
theorem zst_never_rescaled_witness :
    stepZst cfgBase 1 2 [] [] (some ([], [])) = some exZst
    ∧ (applyBaseline cfgBase (gatherM [9, 15, 34, 45] []) [] = some ([], 1)
      ∧ exZst.ctxExtrinsics = gatherM [9, 15, 34, 45] []
      ∧ exZst.tgtExtrinsics = gatherM exZst.tgtIndex []
      ∧ exZst.ctxNear = List.replicate 4 1 ∧ exZst.ctxFar = List.replicate 4 2
      ∧ exZst.tgtNear = List.replicate exZst.tgtIndex.length 1
      ∧ exZst.tgtFar = List.replicate exZst.tgtIndex.length 2) :=
  ⟨stepZst_witness_run,
    zst_never_rescaled cfgBase 1 2 [] [] (some ([], [])) exZst stepZst_witness_run⟩

/-! ### Baseline normalization -/

theorem applyBaseline_two (cfg : DatasetCfg) (a b : Mat4) (extr : List Mat4)
    (hmk : cfg.make_baseline_1 = true) :
    applyBaseline cfg [a, b] extr =
      if (Vec3.sub (transOf a) (transOf b)).norm < cfg.baseline_epsilon then none
      else some (extr.map (divTrans ((Vec3.sub (transOf a) (transOf b)).norm)),
        (Vec3.sub (transOf a) (transOf b)).norm) := by
  unfold applyBaseline
  rw [if_pos ⟨rfl, hmk⟩]
  rfl

theorem applyBaseline_other (cfg : DatasetCfg) (ctxE extr : List Mat4)
    (h : ¬ (ctxE.length = 2 ∧ cfg.make_baseline_1 = true)) :
    applyBaseline cfg ctxE extr = some (extr, 1) := by
  unfold applyBaseline
  rw [if_neg h]

theorem transOf_divTrans (s : ℝ) (M : Mat4) :
    transOf (divTrans s M) = ⟨M 0 3 / s, M 1 3 / s, M 2 3 / s⟩ := by
  unfold transOf divTrans
  ext <;> simp

theorem transOf_one : transOf (1 : Mat4) = ⟨0, 0, 0⟩ := by
  unfold transOf
  ext <;> simp [Matrix.one_apply]

theorem transOf_Mt2 : transOf Mt2 = ⟨2, 0, 0⟩ := by
  unfold transOf Mt2
  ext <;> simp [Matrix.one_apply]

theorem sqrt_four : Real.sqrt 4 = 2 := by
  rw [show (4 : ℝ) = 2 ^ 2 by norm_num, Real.sqrt_sq (by norm_num : (0 : ℝ) ≤ 2)]

theorem baseline_scale_two :
    (Vec3.sub (transOf (1 : Mat4)) (transOf Mt2)).norm = 2 := by
  rw [transOf_one, transOf_Mt2]
  show Real.sqrt (Vec3.normSq (Vec3.sub ⟨0, 0, 0⟩ ⟨2, 0, 0⟩)) = 2
  rw [show Vec3.normSq (Vec3.sub ⟨0, 0, 0⟩ ⟨2, 0, 0⟩) = 4 by
    unfold Vec3.sub Vec3.normSq; norm_num]
  exact sqrt_four

theorem applyBaseline_base :
    applyBaseline cfgBase [1, Mt2] extrBase = some (extrBase.map (divTrans 2), 2) := by
  rw [applyBaseline_two cfgBase 1 Mt2 extrBase rfl, baseline_scale_two, if_neg]
  norm_num [cfgBase]

/-- C1: baseline normalization. (i) With exactly two gathered context views
and `make_baseline_1` on, the scale is the Euclidean norm of the difference
of the two context translations; a scale below `baseline_epsilon` skips the
scene, otherwise every view's translation entries are divided by the scale
(all other matrix entries untouched). (ii) With a context count other than
two or the flag off, the scale is 1 and the extrinsics pass through
unchanged. (iii) In an emitted `.torch` example, near/far bounds are the raw
bounds divided by the scale when `baseline_scale_bounds` is on, and the raw
bounds when it is off. (iv) Concretely, for context translations `(0,0,0)`
and `(2,0,0)` the scale is 2, the normalized context translations are
`(0,0,0)` and `(1,0,0)`, and near/far bounds 10/20 become 5/10. -/
theorem baseline_normalization :
    (∀ (cfg : DatasetCfg) (extr : List Mat4) (a b : Mat4),
      cfg.make_baseline_1 = true →
      ((Vec3.sub (transOf a) (transOf b)).norm < cfg.baseline_epsilon →
        applyBaseline cfg [a, b] extr = none)
      ∧ (¬ (Vec3.sub (transOf a) (transOf b)).norm < cfg.baseline_epsilon →
        applyBaseline cfg [a, b] extr
          = some (extr.map (divTrans ((Vec3.sub (transOf a) (transOf b)).norm)),
              (Vec3.sub (transOf a) (transOf b)).norm)))
    ∧ (∀ (cfg : DatasetCfg) (ctxE extr : List Mat4),
        ¬ (ctxE.length = 2 ∧ cfg.make_baseline_1 = true) →
        applyBaseline cfg ctxE extr = some (extr, 1))
    ∧ (∀ (s : ℝ) (M : Mat4),
        transOf (divTrans s M) = ⟨M 0 3 / s, M 1 3 / s, M 2 3 / s⟩
        ∧ ∀ i j : Fin 4, ¬ (i ≠ 3 ∧ j = 3) → divTrans s M i j = M i j)
    ∧ (∀ (cfg : DatasetCfg) (near far : ℝ) (extr : List Mat4) (fovs : List ℝ)
        (ctx0 tgt : List ℕ) (civ tiv : Bool) (e : SceneExample) (extr2 : List Mat4) (sc : ℝ),
        stepTorch cfg near far extr fovs (some (ctx0, tgt)) civ tiv = some e →
        applyBaseline cfg (gatherM [0, 1] extr) extr = some (extr2, sc) →
        e.ctxExtrinsics = gatherM [0, 1] extr2
        ∧ e.tgtExtrinsics = gatherM tgt extr2
        ∧ (cfg.baseline_scale_bounds = true →
            e.ctxNear = List.replicate 2 (near / sc)
            ∧ e.ctxFar = List.replicate 2 (far / sc)
            ∧ e.tgtNear = List.replicate tgt.length (near / sc)
            ∧ e.tgtFar = List.replicate tgt.length (far / sc))
        ∧ (cfg.baseline_scale_bounds = false →
            e.ctxNear = List.replicate 2 near
            ∧ e.ctxFar = List.replicate 2 far
            ∧ e.tgtNear = List.replicate tgt.length near
            ∧ e.tgtFar = List.replicate tgt.length far))
    ∧ (applyBaseline cfgBase (gatherM [0, 1] extrBase) extrBase
          = some (extrBase.map (divTrans 2), 2)
      ∧ (extrBase.map (divTrans 2)).map transOf = [⟨0, 0, 0⟩, ⟨1, 0, 0⟩]
      ∧ ∃ e : SceneExample,
          stepTorch cfgBase 10 20 extrBase [] (some ([], [])) false false = some e
          ∧ e.ctxExtrinsics.map transOf = [⟨0, 0, 0⟩, ⟨1, 0, 0⟩]
          ∧ e.ctxNear = [5, 5] ∧ e.ctxFar = [10, 10]) := by
  have hgather : gatherM [0, 1] extrBase = [1, Mt2] := rfl
  have htd : (extrBase.map (divTrans 2)).map transOf = [⟨0, 0, 0⟩, ⟨1, 0, 0⟩] := by
    have e1 : transOf (divTrans 2 (1 : Mat4)) = ⟨0, 0, 0⟩ := by
      rw [transOf_divTrans]
      ext <;> simp [Matrix.one_apply]
    have e2 : transOf (divTrans 2 Mt2) = ⟨1, 0, 0⟩ := by
      rw [transOf_divTrans]
      ext <;> simp [Mt2, Matrix.one_apply]
    show [transOf (divTrans 2 1), transOf (divTrans 2 Mt2)] = _
    rw [e1, e2]
  refine ⟨?_, applyBaseline_other, ?_, ?_, ?_⟩
  · intro cfg extr a b hmk
    constructor
    · intro hlt
      rw [applyBaseline_two cfg a b extr hmk, if_pos hlt]
    · intro hlt
      rw [applyBaseline_two cfg a b extr hmk, if_neg hlt]
  · intro s M
    refine ⟨transOf_divTrans s M, ?_⟩
    intro i j hij
    unfold divTrans
    simp only [Matrix.of_apply]
    rw [if_neg hij]
  · intro cfg near far extr fovs ctx0 tgt civ tiv e extr2 sc he happ
    obtain ⟨-, -, st, hb, rfl⟩ :=
      (stepTorch_some_iff cfg near far extr fovs ctx0 tgt civ tiv e).mp he
    rw [happ] at hb
    obtain rfl := (Option.some.inj hb).symm
    refine ⟨rfl, rfl, ?_, ?_⟩
    · intro hbs
      refine ⟨?_, ?_, ?_, ?_⟩ <;> simp [assembleExample, get_bound, hbs]
    · intro hbs
      refine ⟨?_, ?_, ?_, ?_⟩ <;> simp [assembleExample, get_bound, hbs]
  · refine ⟨by rw [hgather]; exact applyBaseline_base, htd, ?_⟩
    refine ⟨assembleExample cfgBase 10 20 [0, 1] [] (extrBase.map (divTrans 2)) 2, ?_, ?_, ?_, ?_⟩
    · rw [stepTorch_some_iff]
      refine ⟨by simp, by simp, (extrBase.map (divTrans 2), 2), ?_, rfl⟩
      rw [hgather]
      exact applyBaseline_base
    · exact htd
    · have hbs : (if cfgBase.baseline_scale_bounds = true then (2 : ℝ) else 1) = 2 := rfl
      show (get_bound 10 2).map (fun v => v /
          if cfgBase.baseline_scale_bounds = true then (2 : ℝ) else 1) = [5, 5]
      simp only [hbs, get_bound, List.map_replicate]
      rw [show (10 : ℝ) / 2 = 5 by norm_num]
      rfl
    · have hbs : (if cfgBase.baseline_scale_bounds = true then (2 : ℝ) else 1) = 2 := rfl
      show (get_bound 20 2).map (fun v => v /
          if cfgBase.baseline_scale_bounds = true then (2 : ℝ) else 1) = [10, 10]
      simp only [hbs, get_bound, List.map_replicate]
      rw [show (20 : ℝ) / 2 = 10 by norm_num]
      rfl

/-- Witness for C1: two coincident context cameras (baseline 0) under
`baseline_epsilon = 0.01` cause the scene to be skipped. -/
theorem baseline_normalization_witness :
    cfgBase.make_baseline_1 = true
    ∧ (Vec3.sub (transOf (1 : Mat4)) (transOf (1 : Mat4))).norm < cfgBase.baseline_epsilon
    ∧ applyBaseline cfgBase [1, 1] [] = none := by
  have hz : (Vec3.sub (transOf (1 : Mat4)) (transOf (1 : Mat4))).norm = 0 := by
    rw [transOf_one]
    show Real.sqrt (Vec3.normSq (Vec3.sub ⟨0, 0, 0⟩ ⟨0, 0, 0⟩)) = 0
    rw [show Vec3.normSq (Vec3.sub ⟨0, 0, 0⟩ ⟨0, 0, 0⟩) = 0 by
      unfold Vec3.sub Vec3.normSq; norm_num]
    exact Real.sqrt_zero
  have hlt : (Vec3.sub (transOf (1 : Mat4)) (transOf (1 : Mat4))).norm
      < cfgBase.baseline_epsilon := by
    rw [hz]
    norm_num [cfgBase]
  exact ⟨rfl, hlt, ((baseline_normalization.1 cfgBase [] 1 1 rfl).1 hlt)⟩

/-! ### Radiance rescaling -/

theorem foldl_max_map_div (m : ℚ) (hm : 0 < m) (t : List ℚ) (a : ℚ) :
    (t.map fun v => v / m).foldl max (a / m) = t.foldl max a / m := by
  induction t generalizing a with
  | nil => rfl
  | cons b t ih =>
    simp only [List.map_cons, List.foldl_cons]
    rw [max_div_div_right (le_of_lt hm)]
    exact ih (max a b)

theorem listMax_map_div (m : ℚ) (hm : 0 < m) (l : List ℚ) :
    listMax (l.map fun v => v / m) = listMax l / m := by
  cases l with
  | nil => show (0 : ℚ) = 0 / m; rw [zero_div]
  | cons a t => exact foldl_max_map_div m hm t a

theorem map_map_flatMap {β γ : Type _} (g : β → γ) (l : List (List β)) :
    (l.map (List.map g)).flatMap id = (l.flatMap id).map g := by
  induction l with
  | nil => rfl
  | cons h t ih => simp [ih]

theorem channelVals_rescale (images : List (List Pixel)) (c : Fin 3) :
    channelVals (rescaleImages images) c
      = (channelVals images c).map fun v => v / channelMax images c := by
  unfold channelVals rescaleImages
  rw [map_map_flatMap, List.map_map, List.map_map]
  rfl

/-- C9: the `.zst` decoder divides every decoded radiance value by the
per-channel maximum taken over all pixels of all frames of the chunk: after
rescaling, each channel's maximum over the whole chunk is 1 (whenever that
maximum is positive), every pixel is the original divided by the chunk-global
channel maximum, and the rescaled content of a frame depends on the other
frames of its chunk (the same frame rescales differently in two different
chunks). -/
theorem zst_image_rescaling (images : List (List Pixel)) (c : Fin 3)
    (h : 0 < channelMax images c) :
    channelMax (rescaleImages images) c = 1
    ∧ (∀ i : ℕ, (rescaleImages images)[i]?
        = (images[i]?).map (List.map fun px c2 => px c2 / channelMax images c2))
    ∧ ((rescaleImages [frame1]).getD 0 []).getD 0 (fun _ => 0) 0
        ≠ ((rescaleImages [frame1, frame2]).getD 0 []).getD 0 (fun _ => 0) 0 := by
  refine ⟨?_, ?_, ?_⟩
  · show listMax (channelVals (rescaleImages images) c) = 1
    rw [channelVals_rescale, listMax_map_div _ h]
    exact div_self (ne_of_gt h)
  · intro i
    unfold rescaleImages
    simp
  · have h1 : channelMax [frame1] 0 = 1 := rfl
    have h2 : channelMax [frame1, frame2] 0 = 2 := by
      show max (1 : ℚ) 2 = 2
      exact max_eq_right (by norm_num)
    show (1 : ℚ) / channelMax [frame1] 0 ≠ 1 / channelMax [frame1, frame2] 0
    rw [h1, h2]
    norm_num

/-- Witness for C9 on a two-frame chunk with channel maxima 2. -/
theorem zst_image_rescaling_witness :
    0 < channelMax imgs9 0 ∧ channelMax (rescaleImages imgs9) 0 = 1 :=
  ⟨by decide, (zst_image_rescaling imgs9 0 (by decide)).1⟩

end MVSplat
